import Mathlib

/-!
Verification of the version-manager core of gemini-commit-wizard.

The source is a Bun/TypeScript script (`VersionManager`).  We model its
pure core as Lean functions over a shallow embedding:

* JavaScript strings are modelled as `List Char` (`JSString`); string
  methods (`includes`, `startsWith`, `toLowerCase`, `split`, `trim`,
  template literals) become list functions.  `toLowerCase`/`toUpperCase`
  are modelled at ASCII level (all substrings the code matches on are
  ASCII or whole emoji).
* `Number(s)` on a split component is modelled by `jsNumber`: a decimal
  natural for a nonempty all-digit string, `0` for the empty string, and
  a `NaN` marker otherwise (the code never feeds it fractional or signed
  numerals).  `undefined` from array destructuring is a separate marker.
* `Date` values only enter through `daysDifference` on `YYYY-MM-DD`
  strings; we model the epoch-day computation with the standard civil
  calendar formula, and an unparseable date as `NaN` (whose comparison
  `NaN > 7` is `false`, as in JS).
* File/console side effects are dropped; `analyzeAndVersion` becomes a
  pure function from the loaded changelog data, the new commits and the
  options to `Except` (an `Except.error` result models the thrown
  exception, which in the source happens before any file write).
-/

namespace GCW

/-- A JavaScript string, modelled as its list of Unicode code points. -/
abbrev JSString := List Char

/-- Convert a Lean string literal to the `JSString` model. -/
def jsStr (s : String) : JSString := s.toList

/-- Model of JS `s.startsWith(pat)`. -/
def jsStartsWith : JSString → JSString → Bool
  | _, [] => true
  | [], _ :: _ => false
  | c :: s, p :: ps => c == p && jsStartsWith s ps

/-- Model of JS `s.includes(sub)`: `sub` occurs contiguously in `s`. -/
def jsIncludes : JSString → JSString → Bool
  | [], sub => sub.isEmpty
  | c :: rest, sub => jsStartsWith (c :: rest) sub || jsIncludes rest sub

/-- Model of JS `toLowerCase` (ASCII range, which covers every
substring the source matches on). -/
def jsToLower (s : JSString) : JSString := s.map Char.toLower

/-- Model of JS `trim`: strip whitespace from both ends. -/
def jsTrim (s : JSString) : JSString :=
  ((s.dropWhile Char.isWhitespace).reverse.dropWhile Char.isWhitespace).reverse

/-- Model of JS `s.split(sep)` for a one-character separator: always
returns a nonempty list of (possibly empty) segments. -/
def splitOnChar (c : Char) : JSString → List JSString
  | [] => [[]]
  | x :: xs =>
    match splitOnChar c xs with
    | [] => [[]]
    | h :: t => if x = c then [] :: h :: t else (x :: h) :: t

/-- A JS numeric value as produced by `Number(...)` on version
components and by array destructuring past the end: a natural, `NaN`,
or `undefined`. -/
inductive JsVal where
  | num (n : Nat)
  | nan
  | undef
deriving DecidableEq

/-- Decimal value of a digit list (caller guarantees all digits). -/
def parseDec (l : JSString) : Nat :=
  l.foldl (fun a c => 10 * a + (c.toNat - 48)) 0

/-- Model of `Number(s)` for the strings this code feeds it: a decimal
natural when `s` is nonempty and all digits, `0` for the empty string
(JS `Number('') = 0`), `NaN` otherwise. -/
def jsNumber (l : JSString) : JsVal :=
  if l.isEmpty then .num 0
  else if l.all Char.isDigit then .num (parseDec l)
  else .nan

/-- Fuel-driven decimal printer (structural recursion so that proofs
and `decide` both reduce it). -/
def toDecFuel : Nat → Nat → JSString
  | 0, _ => []
  | f + 1, n =>
    if n < 10 then [Nat.digitChar n]
    else toDecFuel f (n / 10) ++ [Nat.digitChar (n % 10)]

/-- Decimal rendering of a natural number, as JS renders a safe
non-negative integer in a template literal. -/
def toDec (n : Nat) : JSString := toDecFuel (n + 1) n

/-- Rendering of a `JsVal` inside a JS template literal. -/
def jsValToStr : JsVal → JSString
  | .num n => toDec n
  | .nan => jsStr "NaN"
  | .undef => jsStr "undefined"

/-- Adding 1 to a JS numeric value: `undefined + 1` and `NaN + 1` are
both `NaN`. -/
def jsAdd1 : JsVal → JsVal
  | .num n => .num (n + 1)
  | .nan => .nan
  | .undef => .nan

/-! ## Data model (source: the `interface` declarations of the script) -/

/-- The source's `ChangelogEntry['type']` union:
`'feature' | 'fix' | 'improvement' | 'breaking'`. -/
inductive CKind where
  | feature
  | fix
  | improvement
  | breaking
deriving DecidableEq

/-- The source's `Version['type']` union:
`'initial' | 'major' | 'minor' | 'patch'`. -/
inductive VType where
  | initial
  | major
  | minor
  | patch
deriving DecidableEq

/-- Source `interface ChangelogEntry`. -/
structure ChangelogEntry where
  type : CKind
  title : JSString
  description : JSString
deriving DecidableEq

/-- Source `interface CommitInfo`.  The `technical_section` and
`changelog_section` fields are optional in the source; `none` models
`undefined`. -/
structure CommitInfo where
  hash : JSString
  date : JSString
  title : JSString
  description : JSString
  technical_section : Option JSString := none
  changelog_section : Option JSString := none
deriving DecidableEq

/-- Source `interface Version` (one persisted changelog record).  The
optional `prefix` field of the source is called `pfx` here because
`prefix` is a Lean keyword. -/
structure Version where
  version : JSString
  date : JSString
  type : VType
  title : JSString
  changes : List ChangelogEntry
  technical_notes : JSString
  breaking_changes : List JSString
  commit_hash : JSString
  pfx : Option JSString := none
deriving DecidableEq

/-- Source `interface ChangelogData`. -/
structure ChangelogData where
  current_version : JSString
  versions : List Version
deriving DecidableEq

/-- JS truthiness of an optional string: `undefined` and `''` are
falsy. -/
def jsOptStrTruthy : Option JSString → Bool
  | none => false
  | some s => !s.isEmpty

/-! ## Changelog entry classification
(source: `parseChangelogSection`, `processSectionEntries`) -/

/-- Model of the regex replace `/^##\s*/` on an already-trimmed line
that starts with `##`: drop the two hashes and following whitespace. -/
def stripHeadingMarker (l : JSString) : JSString :=
  (l.drop 2).dropWhile Char.isWhitespace

/-- Model of the regex replace `/^-\s*/` on a line starting with `-`. -/
def stripBulletMarker (l : JSString) : JSString :=
  (l.drop 1).dropWhile Char.isWhitespace

/-- Source `processSectionEntries`: classify one changelog subsection.
The section heading arrives already lowercased; the kind is decided by
substring tests **in the source's order**: `fix`/bug emoji first, then
`feature`/sparkle emoji, then `breaking`, else `improvement`.  Each
bulleted line becomes one entry whose title is the text before the
first `.` (or the whole line when that part is empty). -/
def processSectionEntries (sect : JSString) (entries : List JSString) :
    List ChangelogEntry :=
  let type : CKind :=
    if jsIncludes sect (jsStr "fix") || jsIncludes sect (jsStr "🐛") then .fix
    else if jsIncludes sect (jsStr "feature") || jsIncludes sect (jsStr "✨") then .feature
    else if jsIncludes sect (jsStr "breaking") then .breaking
    else .improvement
  entries.map fun entry =>
    let head := (splitOnChar '.' entry).headD []
    { type := type
      title := if head.isEmpty then entry else head
      description := entry }

/-- State of the line loop in `parseChangelogSection`: accumulated
entries, the current (lowercased) section heading, and the bulleted
lines collected for it. -/
structure SectionAcc where
  entries : List ChangelogEntry
  currentSection : JSString
  currentEntries : List JSString

/-- Flush step of `parseChangelogSection`: a pending section
contributes entries only when the heading is nonempty and it collected
at least one bulleted line. -/
def flushSection (acc : SectionAcc) : List ChangelogEntry :=
  if !acc.currentSection.isEmpty && !acc.currentEntries.isEmpty then
    acc.entries ++ processSectionEntries acc.currentSection acc.currentEntries
  else acc.entries

/-- One line of the `parseChangelogSection` loop. -/
def sectionStep (acc : SectionAcc) (line : JSString) : SectionAcc :=
  if jsStartsWith line (jsStr "##") then
    { entries := flushSection acc
      currentSection := jsToLower (stripHeadingMarker line)
      currentEntries := [] }
  else if jsStartsWith line (jsStr "-") then
    { acc with currentEntries := acc.currentEntries ++ [stripBulletMarker line] }
  else acc

/-- Source `parseChangelogSection`: split the changelog block into
trimmed nonempty lines, walk them accumulating `##` sections and `-`
bullets, and classify each finished section. -/
def parseChangelogSection (changelog : JSString) : List ChangelogEntry :=
  if changelog.isEmpty then []
  else
    let lines := ((splitOnChar '\n' changelog).map jsTrim).filter (fun l => !l.isEmpty)
    flushSection (lines.foldl sectionStep ⟨[], [], []⟩)

/-! ## Bump-type detection (source: `determineVersionType`) -/

/-- The arrow function inside the source's `hasBreaking` scan: the
commit's raw changelog section contains the (case-sensitive) substring
`breaking` (optional chaining: an absent section contributes
`undefined`, falsy), or its lowercased title contains `breaking`. -/
def commitBreakingSignal (c : CommitInfo) : Bool :=
  (match c.changelog_section with
   | some s => jsIncludes s (jsStr "breaking")
   | none => false) ||
  jsIncludes (jsToLower c.title) (jsStr "breaking")

/-- The arrow function inside the source's `hasFeature` scan: the
title starts with `feat(`, or the raw changelog section contains the
sparkle emoji, or the lowercased changelog section contains
`feature`. -/
def commitFeatureSignal (c : CommitInfo) : Bool :=
  jsStartsWith c.title (jsStr "feat(") ||
  (match c.changelog_section with
   | some s => jsIncludes s (jsStr "✨")
   | none => false) ||
  (match c.changelog_section with
   | some s => jsIncludes (jsToLower s) (jsStr "feature")
   | none => false)

/-- Source `determineVersionType`: scan the commits themselves (not
their parsed entries).  Any breaking signal gives `major`; otherwise
any feature signal gives `minor`; otherwise `patch`. -/
def determineVersionType (commits : List CommitInfo) : VType :=
  if commits.any commitBreakingSignal then .major
  else if commits.any commitFeatureSignal then .minor
  else .patch

/-! ## Version string model
(source: `parseVersionString`, `buildVersionString`, `incrementVersion`) -/

/-- Result of `parseVersionString`.  The source field `prefix` is
called `pfx` (Lean keyword). -/
structure ParsedVersion where
  pfx : Option JSString := none
  baseVersion : JSString
deriving DecidableEq

/-- One alternative of the anchored regex
`/^(pre-alpha-|alpha-|beta-|rc-)?(.+)$/`: the token matches only when
it is a proper head of the string (the trailing `(.+)` needs at least
one character, otherwise the engine backtracks to the no-token
branch). -/
def tokenMatches (tok : JSString) (s : JSString) : Bool :=
  jsStartsWith s tok && decide (tok.length < s.length)

/-- Source `parseVersionString`: try the four channel tokens in the
regex's order; on a match the captured token loses its trailing dash
(the source's `replace` of a final dash) and the rest is the base; otherwise the whole
string is the base with no channel tag.  The function never fails. -/
def parseVersionString (version : JSString) : ParsedVersion :=
  if tokenMatches (jsStr "pre-alpha-") version then
    ⟨some (jsStr "pre-alpha"), version.drop 10⟩
  else if tokenMatches (jsStr "alpha-") version then
    ⟨some (jsStr "alpha"), version.drop 6⟩
  else if tokenMatches (jsStr "beta-") version then
    ⟨some (jsStr "beta"), version.drop 5⟩
  else if tokenMatches (jsStr "rc-") version then
    ⟨some (jsStr "rc"), version.drop 3⟩
  else ⟨none, version⟩

/-- Source `buildVersionString(prefix?, baseVersion?)`: a falsy base
(absent or empty) yields the constant `1.0.0`; a falsy channel tag
yields the bare base; otherwise `tag-base`. -/
def buildVersionString (pfx : Option JSString) (baseVersion : Option JSString) :
    JSString :=
  match baseVersion with
  | none => jsStr "1.0.0"
  | some base =>
    if base.isEmpty then jsStr "1.0.0"
    else if jsOptStrTruthy pfx then pfx.getD [] ++ '-' :: base
    else base

/-- The `newBaseVersion` computation inside the source's
`incrementVersion`: split the parsed base on dots, read the three
components as JS numbers (destructuring past the end gives
`undefined`), and render the bumped triple through the template
literals of the `switch`; its `default` arm (`initial` here) returns
the base unchanged. -/
def bumpedBase (currentVersion : JSString) (actualType : VType) : JSString :=
  let pv := parseVersionString currentVersion
  let nums := (splitOnChar '.' pv.baseVersion).map jsNumber
  let major := nums.getD 0 .undef
  let minor := nums.getD 1 .undef
  let patch := nums.getD 2 .undef
  match actualType with
  | .major => jsValToStr (jsAdd1 major) ++ jsStr ".0.0"
  | .minor => jsValToStr major ++ '.' :: jsValToStr (jsAdd1 minor) ++ jsStr ".0"
  | .patch =>
    jsValToStr major ++ '.' :: jsValToStr minor ++ '.' :: jsValToStr (jsAdd1 patch)
  | .initial => pv.baseVersion

/-- Source `incrementVersion(currentVersion, type, targetPrefix?,
overrideType?)`: pick the explicit target channel tag when one is
passed (`targetPrefix !== undefined`, so an explicit empty string is
still an override) and the current version's tag otherwise, let an
override type win (`overrideType || type`; every type string is
truthy), bump the base (`bumpedBase`), and rebuild. -/
def incrementVersion (currentVersion : JSString) (type : VType)
    (targetPfx : Option JSString := none) (overrideType : Option VType := none) :
    JSString :=
  let newPfx := match targetPfx with
    | some p => some p
    | none => (parseVersionString currentVersion).pfx
  buildVersionString newPfx (some (bumpedBase currentVersion (overrideType.getD type)))

/-! ## Channel-tag transition validation
(source: `validatePrefixTransition`) -/

/-- The source's `prefixOrder` array (here `none` models the trailing
`undefined`, i.e. stable). -/
def pfxOrder : List (Option JSString) :=
  [some (jsStr "pre-alpha"), some (jsStr "alpha"), some (jsStr "beta"),
   some (jsStr "rc"), none]

/-- The source's `validPrefixes` array. -/
def validPfxList : List JSString :=
  [jsStr "pre-alpha", jsStr "alpha", jsStr "beta", jsStr "rc"]

/-- JS `Array.prototype.indexOf`: position of the first occurrence, or
`-1`. -/
def indexOfOpt : List (Option JSString) → Option JSString → Int
  | [], _ => -1
  | a :: rest, x =>
    if a = x then 0
    else
      let r := indexOfOpt rest x
      if r = -1 then -1 else r + 1

/-- Source `validatePrefixTransition(currentVersion, targetPrefix?)`.
The returned `Bool` records whether the non-fatal regression warning
was printed; a truthy target tag outside `validPrefixes` throws (here:
`Except.error`). -/
def validatePfxTransition (currentVersion : JSString)
    (targetPfx : Option JSString) : Except JSString Bool :=
  let currentPfx := (parseVersionString currentVersion).pfx
  let currentIndex := indexOfOpt pfxOrder currentPfx
  let targetIndex := indexOfOpt pfxOrder targetPfx
  let warned := !(currentIndex == -1) && !(targetIndex == -1)
    && decide (targetIndex < currentIndex)
  if jsOptStrTruthy targetPfx && !(validPfxList.contains (targetPfx.getD [])) then
    .error (jsStr "Prefijo inválido")
  else .ok warned

/-! ## Version-cut pipeline (source: `analyzeAndVersion`) -/

/-- Model of the JS regex replace stripping a conventional-commit tag
`feat(scope) - `, `fix(scope) - ` or `refactor(scope) - ` from a
title: after the opening parenthesis there must be at least one
non-parenthesis character, a closing parenthesis, then optional
whitespace, a dash, and optional whitespace.  Anything else leaves the
title unchanged. -/
def stripConvTagAfter (rest : JSString) : Option JSString :=
  let inside := rest.takeWhile (fun c => !(c == ')'))
  let after := rest.dropWhile (fun c => !(c == ')'))
  if inside.isEmpty then none
  else
    match after with
    | ')' :: r2 =>
      match r2.dropWhile Char.isWhitespace with
      | '-' :: r4 => some (r4.dropWhile Char.isWhitespace)
      | _ => none
    | _ => none

/-- Try one tag word of the alternation `(feat|fix|refactor)`. -/
def stripConvTagWith (tag : JSString) (title : JSString) : Option JSString :=
  if jsStartsWith title (tag ++ ['(']) then
    stripConvTagAfter (title.drop (tag.length + 1))
  else none

/-- The full title-stripping replace from the source's fallback entry
generation. -/
def stripConvTag (title : JSString) : JSString :=
  match stripConvTagWith (jsStr "feat") title with
  | some r => r
  | none =>
    match stripConvTagWith (jsStr "fix") title with
    | some r => r
    | none =>
      match stripConvTagWith (jsStr "refactor") title with
      | some r => r
      | none => title

/-- The source's fallback entry for a commit without a (truthy)
changelog section: classify by the title's conventional-commit tag. -/
def syntheticEntry (c : CommitInfo) : ChangelogEntry :=
  let type : CKind :=
    if jsStartsWith c.title (jsStr "feat(") then .feature
    else if jsStartsWith c.title (jsStr "fix(") then .fix
    else .improvement
  { type := type, title := stripConvTag c.title, description := c.title }

/-- The entries one commit contributes to a version cut (the body of
the `for` loop over `newCommits` in `analyzeAndVersion`). -/
def commitEntries (c : CommitInfo) : List ChangelogEntry :=
  if jsOptStrTruthy c.changelog_section then
    parseChangelogSection (c.changelog_section.getD [])
  else [syntheticEntry c]

/-- All entries of a batch of commits, in commit order (`allChanges`
in the source). -/
def commitBatchEntries (commits : List CommitInfo) : List ChangelogEntry :=
  commits.foldl (fun acc c => acc ++ commitEntries c) []

/-- JS `charAt(0).toUpperCase() + slice(1)` (ASCII case map). -/
def capitalizeJs : JSString → JSString
  | [] => []
  | c :: rest => c.toUpper :: rest

/-- Source `generateVersionTitle`. -/
def generateVersionTitle (changes : List ChangelogEntry) (type : VType)
    (pfx : Option JSString) : JSString :=
  let features := changes.filter fun c => c.type == .feature
  let fixes := changes.filter fun c => c.type == .fix
  let improvements := changes.filter fun c => c.type == .improvement
  let pfxLabel : JSString :=
    if jsOptStrTruthy pfx then
      jsStr "Versión " ++ capitalizeJs (pfx.getD []) ++ jsStr " - "
    else []
  if type == .major then
    pfxLabel ++ jsStr "Actualización mayor con cambios significativos"
  else
    match features with
    | f :: fs =>
      if fs.isEmpty then pfxLabel ++ jsStr "Nueva funcionalidad: " ++ f.title
      else
        pfxLabel ++ jsStr "Nuevas funcionalidades incluyendo " ++ f.title
          ++ jsStr " y " ++ toDec (features.length - 1) ++ jsStr " más"
    | [] =>
      match fixes with
      | fx :: rest =>
        if rest.isEmpty then pfxLabel ++ jsStr "Corrección: " ++ fx.title
        else
          pfxLabel ++ jsStr "Correcciones y mejoras (" ++ toDec fixes.length
            ++ jsStr " fixes, " ++ toDec improvements.length ++ jsStr " mejoras)"
      | [] => pfxLabel ++ jsStr "Mejoras y optimizaciones"

/-- The options object of `analyzeAndVersion` (`type?`, `prefix?`). -/
structure AnalyzeOptions where
  type : Option VType := none
  pfx : Option JSString := none

/-- Source `analyzeAndVersion`, as a pure function from the loaded
changelog data, the commits found since the last cut (oldest first, as
`git log --reverse` delivers them) and the options to either the
thrown error or the updated changelog data.  Console output and the
file writes that follow the successful computation are dropped; an
`Except.error` reproduces the source's `throw`, which happens before
any file is written. -/
def analyzeAndVersionCore (data : ChangelogData) (newCommits : List CommitInfo)
    (options : AnalyzeOptions) (today : JSString) : Except JSString ChangelogData :=
  if newCommits.isEmpty then .ok data
  else
    let detectedVersionType := determineVersionType newCommits
    let finalVersionType := options.type.getD detectedVersionType
    let check : Except JSString Bool :=
      match options.pfx with
      | some p => validatePfxTransition data.current_version (some p)
      | none => .ok false
    match check with
    | .error e => .error e
    | .ok _ =>
      let newVersion := incrementVersion data.current_version detectedVersionType
        options.pfx (some finalVersionType)
      let allChanges := commitBatchEntries newCommits
      let technicalNotes := jsTrim (newCommits.foldl (fun acc c =>
        if jsOptStrTruthy c.technical_section then
          acc ++ '\n' :: c.technical_section.getD []
        else acc) [])
      let pfx := (parseVersionString newVersion).pfx
      let newVersionEntry : Version :=
        { version := newVersion
          date := today
          type := finalVersionType
          title := generateVersionTitle allChanges finalVersionType pfx
          changes := allChanges
          technical_notes := technicalNotes
          breaking_changes := (allChanges.filter fun c => c.type == .breaking).map
            (·.description)
          commit_hash := ((newCommits.getLast?).map (·.hash)).getD []
          pfx := pfx }
      .ok { current_version := newVersion
            versions := newVersionEntry :: data.versions }

/-! ## Dates and historical grouping
(source: `daysDifference`, `groupCommitsIntoVersions`,
`generateGroupTitle`) -/

/-- Day number of a `(year, month, day)` civil date (standard
days-from-civil formula, valid for the CE dates the tool handles);
only differences of these numbers are ever used. -/
def daysFromCivil (y m d : Nat) : Nat :=
  let y' := if m ≤ 2 then y - 1 else y
  let era := y' / 400
  let yoe := y' % 400
  let mp := if m > 2 then m - 3 else m + 9
  let doy := (153 * mp + 2) / 5 + d - 1
  let doe := yoe * 365 + yoe / 4 - yoe / 100 + doy
  era * 146097 + doe

/-- Model of `new Date(s).getTime()` on the `YYYY-MM-DD` strings the
tool stores, at day resolution: `none` models an invalid date (JS
`NaN`). -/
def parseDateDays (s : JSString) : Option Nat :=
  match splitOnChar '-' s with
  | [ys, ms, ds] =>
    if ys.length == 4 && ms.length == 2 && ds.length == 2
        && ys.all Char.isDigit && ms.all Char.isDigit && ds.all Char.isDigit then
      let m := parseDec ms
      let d := parseDec ds
      if 1 ≤ m && m ≤ 12 && 1 ≤ d && d ≤ 31 then
        some (daysFromCivil (parseDec ys) m d)
      else none
    else none
  | _ => none

/-- Source `daysDifference`: absolute difference in days, `none` (JS
`NaN`) when either date fails to parse. -/
def daysDifference (date1 date2 : JSString) : Option Nat :=
  match parseDateDays date1, parseDateDays date2 with
  | some a, some b => some (max a b - min a b)
  | _, _ => none

/-- The loop guard's middle test `daysDifference(...) > 7`; `NaN > 7`
is `false` in JS. -/
def gapExceeds7 (date1 date2 : JSString) : Bool :=
  match daysDifference date1 date2 with
  | some n => decide (7 < n)
  | none => false

/-- Source `generateGroupTitle`. -/
def generateGroupTitle (commits : List CommitInfo) : JSString :=
  let features := commits.filter fun c => jsStartsWith c.title (jsStr "feat(")
  let fixes := commits.filter fun c => jsStartsWith c.title (jsStr "fix(")
  if !features.isEmpty then jsStr "Nuevas funcionalidades y mejoras"
  else if !fixes.isEmpty then jsStr "Correcciones y optimizaciones"
  else jsStr "Mejoras del sistema"

/-- One synthesized release group of `groupCommitsIntoVersions`. -/
structure VGroup where
  commits : List CommitInfo
  date : JSString
  type : VType
  title : JSString
deriving DecidableEq

/-- Build the group record pushed by `groupCommitsIntoVersions`. -/
def mkVGroup (commits : List CommitInfo) (date : JSString) : VGroup :=
  ⟨commits, date, determineVersionType commits, generateGroupTitle commits⟩

/-- Loop state of `groupCommitsIntoVersions`: finished groups, the
running group, and its anchor date (`''` before the first commit). -/
structure GroupAcc where
  groups : List VGroup
  currentGroup : List CommitInfo
  currentDate : JSString

/-- One iteration of the grouping loop: start a new group when there
is no anchor date yet (falsy `currentDate`), the gap from the anchor
exceeds 7 days, or the running group has reached 10 commits; otherwise
append to the running group. -/
def groupStep (acc : GroupAcc) (commit : CommitInfo) : GroupAcc :=
  if acc.currentDate.isEmpty || gapExceeds7 acc.currentDate commit.date
      || decide (10 ≤ acc.currentGroup.length) then
    { groups :=
        if acc.currentGroup.isEmpty then acc.groups
        else acc.groups ++ [mkVGroup acc.currentGroup acc.currentDate]
      currentGroup := [commit]
      currentDate := commit.date }
  else { acc with currentGroup := acc.currentGroup ++ [commit] }

/-- The post-loop flush of `groupCommitsIntoVersions`: a nonempty
running group becomes one more finished group. -/
def finishGroups (acc : GroupAcc) : List VGroup :=
  if acc.currentGroup.isEmpty then acc.groups
  else acc.groups ++ [mkVGroup acc.currentGroup acc.currentDate]

/-- Source `groupCommitsIntoVersions`: run the loop, flush the last
running group, and reverse so the most recent group comes first. -/
def groupCommitsIntoVersions (commits : List CommitInfo) : List VGroup :=
  (finishGroups (commits.foldl groupStep ⟨[], [], []⟩)).reverse

deriving instance DecidableEq for Except

/-! ## Auxiliary lemmas: decimal rendering -/

theorem digitChar_toNat : ∀ d : Nat, d < 10 → (Nat.digitChar d).toNat = 48 + d := by
  decide

theorem digitChar_isDigit : ∀ d : Nat, d < 10 → (Nat.digitChar d).isDigit = true := by
  decide

theorem toDecFuel_spec :
    ∀ f n, n < f →
      (toDecFuel f n).all Char.isDigit = true ∧ toDecFuel f n ≠ [] ∧
        parseDec (toDecFuel f n) = n := by
  intro f
  induction f with
  | zero => intro n h; omega
  | succ f ih =>
    intro n h
    by_cases h10 : n < 10
    · refine ⟨?_, ?_, ?_⟩ <;> simp [toDecFuel, h10, parseDec, digitChar_isDigit n h10]
      rw [digitChar_toNat n h10]; omega
    · have hn : 0 < n := by omega
      have hdiv : n / 10 < f := by
        have := Nat.div_lt_self hn (by omega : 1 < 10)
        omega
      obtain ⟨ha, hb, hc⟩ := ih (n / 10) hdiv
      have hmod : n % 10 < 10 := Nat.mod_lt _ (by omega)
      refine ⟨?_, ?_, ?_⟩
      · simp [toDecFuel, h10, ha, digitChar_isDigit _ hmod]
      · simp [toDecFuel, h10]
      · have : parseDec (toDecFuel f (n / 10) ++ [Nat.digitChar (n % 10)]) =
            10 * parseDec (toDecFuel f (n / 10)) + ((Nat.digitChar (n % 10)).toNat - 48) := by
          simp [parseDec, List.foldl_append]
        simp only [toDecFuel, if_neg h10, this, hc, digitChar_toNat _ hmod]
        omega

theorem toDec_spec (n : Nat) :
    (toDec n).all Char.isDigit = true ∧ toDec n ≠ [] ∧ parseDec (toDec n) = n :=
  toDecFuel_spec (n + 1) n (Nat.lt_succ_self n)

theorem jsNumber_toDec (n : Nat) : jsNumber (toDec n) = .num n := by
  obtain ⟨ha, hb, hc⟩ := toDec_spec n
  simp [jsNumber, ha, hc, List.isEmpty_iff, hb]

theorem dot_not_mem_toDec (n : Nat) : '.' ∉ toDec n := by
  intro hmem
  have := (List.all_eq_true.mp (toDec_spec n).1) '.' hmem
  simp [Char.isDigit] at this

/-! ## Auxiliary lemmas: split, startsWith, includes -/

theorem splitOnChar_ne_nil (c : Char) (l : JSString) : splitOnChar c l ≠ [] := by
  induction l with
  | nil => simp [splitOnChar]
  | cons x xs ih =>
    cases h : splitOnChar c xs with
    | nil => exact absurd h ih
    | cons hd tl =>
      simp only [splitOnChar, h]
      split <;> simp

theorem splitOnChar_cons_sep (c : Char) (l : JSString) :
    splitOnChar c (c :: l) = [] :: splitOnChar c l := by
  simp only [splitOnChar]
  cases h : splitOnChar c l with
  | nil => exact absurd h (splitOnChar_ne_nil c l)
  | cons hd tl => simp

theorem splitOnChar_cons_other {c x : Char} (hx : x ≠ c) (l : JSString) :
    splitOnChar c (x :: l) =
      (x :: (splitOnChar c l).headD []) :: (splitOnChar c l).tail := by
  simp only [splitOnChar]
  cases h : splitOnChar c l with
  | nil => exact absurd h (splitOnChar_ne_nil c l)
  | cons hd tl => simp [hx]

theorem splitOnChar_no_sep {c : Char} {a : JSString} (h : c ∉ a) :
    splitOnChar c a = [a] := by
  induction a with
  | nil => rfl
  | cons x xs ih =>
    have hx : x ≠ c := fun he => h (he ▸ List.mem_cons_self x xs)
    have hxs : c ∉ xs := fun hm => h (List.mem_cons_of_mem x hm)
    rw [splitOnChar_cons_other hx, ih hxs]
    rfl

theorem splitOnChar_append_sep {c : Char} {a : JSString} (h : c ∉ a)
    (rest : JSString) :
    splitOnChar c (a ++ c :: rest) = a :: splitOnChar c rest := by
  induction a with
  | nil => simpa using splitOnChar_cons_sep c rest
  | cons x xs ih =>
    have hx : x ≠ c := fun he => h (he ▸ List.mem_cons_self x xs)
    have hxs : c ∉ xs := fun hm => h (List.mem_cons_of_mem x hm)
    rw [List.cons_append, splitOnChar_cons_other hx, ih hxs]
    rfl

theorem jsStartsWith_iff {s pat : JSString} :
    jsStartsWith s pat = true ↔ ∃ t, s = pat ++ t := by
  induction pat generalizing s with
  | nil => simp [jsStartsWith]
  | cons p ps ih =>
    cases s with
    | nil => simp [jsStartsWith]
    | cons c s' =>
      simp only [jsStartsWith, Bool.and_eq_true, beq_iff_eq, ih, List.cons_append,
        List.cons.injEq]
      constructor
      · rintro ⟨rfl, t, rfl⟩; exact ⟨t, rfl, rfl⟩
      · rintro ⟨t, rfl, rfl⟩; exact ⟨rfl, t, rfl⟩

theorem jsStartsWith_append_drop {s pat : JSString}
    (h : jsStartsWith s pat = true) : pat ++ s.drop pat.length = s := by
  obtain ⟨t, rfl⟩ := jsStartsWith_iff.mp h
  rw [List.drop_left]

theorem jsIncludes_iff {s sub : JSString} :
    jsIncludes s sub = true ↔ sub <:+: s := by
  induction s with
  | nil => simp [jsIncludes, List.isEmpty_iff]
  | cons c rest ih =>
    simp only [jsIncludes, Bool.or_eq_true, ih, List.infix_cons_iff, jsStartsWith_iff]
    constructor
    · rintro (⟨t, he⟩ | h)
      · exact Or.inl ⟨t, he.symm⟩
      · exact Or.inr h
    · rintro (⟨t, he⟩ | h)
      · exact Or.inl ⟨t, he.symm⟩
      · exact Or.inr h

/-! ## Version triples -/

/-- The canonical string `M.N.P` of a base triple. -/
def mkTriple (M N P : Nat) : JSString :=
  toDec M ++ '.' :: (toDec N ++ '.' :: toDec P)

/-- A base string made of three dot-separated nonempty digit runs. -/
def isValidTriple (l : JSString) : Bool :=
  match splitOnChar '.' l with
  | [a, b, c] =>
    !a.isEmpty && a.all Char.isDigit && !b.isEmpty && b.all Char.isDigit
      && !c.isEmpty && c.all Char.isDigit
  | _ => false

theorem splitOnChar_mkTriple (M N P : Nat) :
    splitOnChar '.' (toDec M ++ '.' :: (toDec N ++ '.' :: toDec P)) =
      [toDec M, toDec N, toDec P] := by
  rw [splitOnChar_append_sep (dot_not_mem_toDec M),
    splitOnChar_append_sep (dot_not_mem_toDec N),
    splitOnChar_no_sep (dot_not_mem_toDec P)]

/-- Rebuilding after a successful channel-token match restores the
original string. -/
theorem buildVersionString_token {s pfxName tok : JSString} {n : Nat}
    (he : tok = pfxName ++ ['-']) (hn : n = tok.length)
    (htok : tokenMatches tok s = true) (hne : pfxName.isEmpty = false) :
    buildVersionString (some pfxName) (some (s.drop n)) = s := by
  have htok' : jsStartsWith s tok = true ∧ tok.length < s.length := by
    have h := htok
    simp only [tokenMatches, Bool.and_eq_true, decide_eq_true_eq] at h
    exact h
  have hsw : jsStartsWith s tok = true := htok'.1
  have hlt : tok.length < s.length := htok'.2
  have hdropne : (s.drop n).isEmpty = false := by
    cases hemp : (s.drop n).isEmpty with
    | false => rfl
    | true =>
      have : s.drop n = [] := List.isEmpty_iff.mp hemp
      have := congrArg List.length this
      simp only [List.length_drop, List.length_nil] at this
      omega
  have hmain : tok ++ s.drop n = s := by
    rw [hn, he] at *
    exact jsStartsWith_append_drop hsw
  simp only [buildVersionString, hdropne, Bool.false_eq_true, if_false,
    jsOptStrTruthy, hne, Bool.not_false, if_true]
  calc pfxName ++ '-' :: s.drop n = (pfxName ++ ['-']) ++ s.drop n := by simp
    _ = s := by rw [← he, hmain]

/-- Claim C3: for every valid version string (an optional recognized
channel token followed by a dot-separated triple of digit runs),
parsing with `parseVersionString` and serializing the result with
`buildVersionString` yields the original string. -/
theorem claim3_parse_build_roundtrip (s : JSString)
    (h : isValidTriple (parseVersionString s).baseVersion = true) :
    buildVersionString (parseVersionString s).pfx
      (some (parseVersionString s).baseVersion) = s := by
  by_cases h1 : tokenMatches (jsStr "pre-alpha-") s = true
  · simp only [parseVersionString, h1, if_true]
    exact buildVersionString_token (by decide) (by decide) h1 (by decide)
  · by_cases h2 : tokenMatches (jsStr "alpha-") s = true
    · simp only [parseVersionString, h1, h2, if_true, Bool.false_eq_true, if_false]
      exact buildVersionString_token (by decide) (by decide) h2 (by decide)
    · by_cases h3 : tokenMatches (jsStr "beta-") s = true
      · simp only [parseVersionString, h1, h2, h3, if_true, Bool.false_eq_true, if_false]
        exact buildVersionString_token (by decide) (by decide) h3 (by decide)
      · by_cases h4 : tokenMatches (jsStr "rc-") s = true
        · simp only [parseVersionString, h1, h2, h3, h4, if_true, Bool.false_eq_true,
            if_false]
          exact buildVersionString_token (by decide) (by decide) h4 (by decide)
        · have hps : parseVersionString s = ⟨none, s⟩ := by
            simp only [parseVersionString, h1, h2, h3, h4, Bool.false_eq_true, if_false]
          rw [hps] at h ⊢
          have hsne : s.isEmpty = false := by
            cases hemp : s.isEmpty with
            | false => rfl
            | true =>
              rw [List.isEmpty_iff.mp hemp] at h
              simp [isValidTriple, splitOnChar] at h
          simp [buildVersionString, hsne, jsOptStrTruthy]

/-- Witness for C3 at the concrete valid input `beta-1.2.3`. -/
theorem claim3_parse_build_roundtrip_witness :
    isValidTriple (parseVersionString (jsStr "beta-1.2.3")).baseVersion = true ∧
      buildVersionString (parseVersionString (jsStr "beta-1.2.3")).pfx
        (some (parseVersionString (jsStr "beta-1.2.3")).baseVersion) =
        jsStr "beta-1.2.3" :=
  ⟨by decide, claim3_parse_build_roundtrip (jsStr "beta-1.2.3") (by decide)⟩

/-- Claim C2: on a current version whose base parses as the triple
`(M, N, P)`, a `major` bump yields base `(M+1, 0, 0)`, `minor` yields
`(M, N+1, 0)`, `patch` yields `(M, N, P+1)`, and the unrecognized type
(the `switch` default, `initial`) leaves the base unchanged with no
error; the channel tag carries over.  Concretely, `minor` on `1.4.9`
gives `1.5.0`, `major` on `0.9.3` gives `1.0.0`, and `patch` on
`2.0.0` gives `2.0.1`. -/
theorem claim2_bump_arithmetic (cur : JSString) (pfx : Option JSString)
    (M N P : Nat) (h : parseVersionString cur = ⟨pfx, mkTriple M N P⟩) :
    (incrementVersion cur .major = buildVersionString pfx (some (mkTriple (M + 1) 0 0)) ∧
      incrementVersion cur .minor = buildVersionString pfx (some (mkTriple M (N + 1) 0)) ∧
      incrementVersion cur .patch = buildVersionString pfx (some (mkTriple M N (P + 1))) ∧
      incrementVersion cur .initial = buildVersionString pfx (some (mkTriple M N P))) ∧
    incrementVersion (jsStr "1.4.9") .minor = jsStr "1.5.0" ∧
    incrementVersion (jsStr "0.9.3") .major = jsStr "1.0.0" ∧
    incrementVersion (jsStr "2.0.0") .patch = jsStr "2.0.1" := by
  have jv : ∀ n, jsValToStr (JsVal.num n) = toDec n := fun _ => rfl
  have ja : ∀ n, jsAdd1 (JsVal.num n) = JsVal.num (n + 1) := fun _ => rfl
  have e0 : jsStr ".0.0" = '.' :: (toDec 0 ++ '.' :: toDec 0) := by decide
  have e1 : jsStr ".0" = '.' :: toDec 0 := by decide
  refine ⟨⟨?_, ?_, ?_, ?_⟩, by decide, by decide, by decide⟩ <;>
    simp only [incrementVersion, h, Option.getD_none, bumpedBase, splitOnChar_mkTriple,
      List.map_cons, List.map_nil, jsNumber_toDec, List.getD_cons_zero,
      List.getD_cons_succ, ja, jv, e0, e1, mkTriple, List.append_assoc,
      List.cons_append, List.nil_append]

/-- Claim C6: on current version `alpha-1.2.0`, a `minor` bump with an
explicit empty-string channel override (JS falsy but not `undefined`,
i.e. an explicit request for stable) yields `1.3.0` with no tag;
in general an explicit override always replaces the current tag and an
absent override carries the current tag forward unchanged. -/
theorem claim6_explicit_override_stable :
    incrementVersion (jsStr "alpha-1.2.0") .minor (some []) none = jsStr "1.3.0" ∧
    (∀ (cur : JSString) (t : VType) (p : JSString) (o : Option VType),
      incrementVersion cur t (some p) o =
        buildVersionString (some p) (some (bumpedBase cur (o.getD t)))) ∧
    (∀ (cur : JSString) (t : VType) (o : Option VType),
      incrementVersion cur t none o =
        buildVersionString (parseVersionString cur).pfx
          (some (bumpedBase cur (o.getD t)))) :=
  ⟨by decide, fun _ _ _ _ => rfl, fun _ _ _ => rfl⟩

/-- Tests whether some recognized channel token matches at the head of
the string (with a nonempty rest), i.e. whether `parseVersionString`
takes one of its token branches. -/
def hasKnownTag (s : JSString) : Bool :=
  tokenMatches (jsStr "pre-alpha-") s || tokenMatches (jsStr "alpha-") s
    || tokenMatches (jsStr "beta-") s || tokenMatches (jsStr "rc-") s

/-- Counterexample to claim C7 as stated: the base `abc` is not three
dot-separated integers, yet parsing does not fail — it returns the
base verbatim (the parser has no error path at all). -/
theorem claim7_parse_fails_cex :
    parseVersionString (jsStr "abc") = ⟨none, jsStr "abc"⟩ ∧
      isValidTriple (jsStr "abc") = false := by
  decide

/-- Claim C7 as amended: `parseVersionString` never fails and performs
no format validation — any input without a recognized channel token is
returned verbatim as the base, and incrementing a version with an
invalid base silently produces a malformed result
(`NaN.undefined.NaN`) instead of raising an error. -/
theorem claim7_parse_never_fails (s : JSString) (h : hasKnownTag s = false) :
    parseVersionString s = ⟨none, s⟩ ∧
      incrementVersion (jsStr "abc") .patch = jsStr "NaN.undefined.NaN" := by
  refine ⟨?_, by decide⟩
  have h4 : tokenMatches (jsStr "pre-alpha-") s = false ∧
      tokenMatches (jsStr "alpha-") s = false ∧
      tokenMatches (jsStr "beta-") s = false ∧
      tokenMatches (jsStr "rc-") s = false := by
    unfold hasKnownTag at h
    simp only [Bool.or_eq_false_iff] at h
    exact ⟨h.1.1.1, h.1.1.2, h.1.2, h.2⟩
  simp only [parseVersionString, h4.1, h4.2.1, h4.2.2.1, h4.2.2.2,
    Bool.false_eq_true, if_false]

/-- Witness for C7 (amended) at the concrete input `abc`. -/
theorem claim7_parse_never_fails_witness :
    hasKnownTag (jsStr "abc") = false ∧
      (parseVersionString (jsStr "abc") = ⟨none, jsStr "abc"⟩ ∧
        incrementVersion (jsStr "abc") .patch = jsStr "NaN.undefined.NaN") :=
  ⟨by decide, claim7_parse_never_fails (jsStr "abc") (by decide)⟩

/-- Claim C10: serializing with an absent or empty base returns the
constant `1.0.0` whatever the channel tag is (the tag is discarded);
the function is total, so an empty base silently defaults instead of
erroring. -/
theorem claim10_empty_base_default (pfx : Option JSString) :
    buildVersionString pfx none = jsStr "1.0.0" ∧
      buildVersionString pfx (some []) = jsStr "1.0.0" :=
  ⟨rfl, rfl⟩

/-- Witness for C2 at the concrete current version `1.4.9`. -/
theorem claim2_bump_arithmetic_witness :
    (incrementVersion (jsStr "1.4.9") .major =
        buildVersionString none (some (mkTriple (1 + 1) 0 0)) ∧
      incrementVersion (jsStr "1.4.9") .minor =
        buildVersionString none (some (mkTriple 1 (4 + 1) 0)) ∧
      incrementVersion (jsStr "1.4.9") .patch =
        buildVersionString none (some (mkTriple 1 4 (9 + 1))) ∧
      incrementVersion (jsStr "1.4.9") .initial =
        buildVersionString none (some (mkTriple 1 4 9))) ∧
    incrementVersion (jsStr "1.4.9") .minor = jsStr "1.5.0" ∧
    incrementVersion (jsStr "0.9.3") .major = jsStr "1.0.0" ∧
    incrementVersion (jsStr "2.0.0") .patch = jsStr "2.0.1" :=
  claim2_bump_arithmetic (jsStr "1.4.9") none 1 4 9 (by decide)

/-! ## Bump-type detection vs. parsed entry kinds (claim C1) -/

/-- Spec-level reading of the breaking signal of one commit: its raw
changelog text contains `breaking` (case-sensitively) or its
lowercased title does. -/
def BreakingSignal (c : CommitInfo) : Prop :=
  (∃ s, c.changelog_section = some s ∧ jsStr "breaking" <:+: s) ∨
    jsStr "breaking" <:+: jsToLower c.title

/-- Spec-level reading of the feature signal of one commit: its title
starts with `feat(`, or its changelog text contains the sparkle emoji,
or its lowercased changelog text contains `feature`. -/
def FeatureSignal (c : CommitInfo) : Prop :=
  (∃ t, c.title = jsStr "feat(" ++ t) ∨
    (∃ s, c.changelog_section = some s ∧
      (jsStr "✨" <:+: s ∨ jsStr "feature" <:+: jsToLower s))

theorem commitBreakingSignal_iff (c : CommitInfo) :
    commitBreakingSignal c = true ↔ BreakingSignal c := by
  cases hcs : c.changelog_section with
  | none => simp [commitBreakingSignal, BreakingSignal, hcs, jsIncludes_iff]
  | some s => simp [commitBreakingSignal, BreakingSignal, hcs, jsIncludes_iff]

theorem commitFeatureSignal_iff (c : CommitInfo) :
    commitFeatureSignal c = true ↔ FeatureSignal c := by
  cases hcs : c.changelog_section with
  | none =>
    simp [commitFeatureSignal, FeatureSignal, hcs, jsIncludes_iff, jsStartsWith_iff]
  | some s =>
    simp [commitFeatureSignal, FeatureSignal, hcs, jsIncludes_iff, jsStartsWith_iff,
      or_assoc]

theorem any_breaking_iff (commits : List CommitInfo) :
    commits.any commitBreakingSignal = true ↔ ∃ c ∈ commits, BreakingSignal c := by
  simp only [List.any_eq_true, commitBreakingSignal_iff]

theorem any_feature_iff (commits : List CommitInfo) :
    commits.any commitFeatureSignal = true ↔ ∃ c ∈ commits, FeatureSignal c := by
  simp only [List.any_eq_true, commitFeatureSignal_iff]

/-- Commit used for the C1 counterexample: its changelog heading is
the uppercase `## BREAKING`, so the parsed entry has kind `breaking`,
but neither the raw section nor the title contains the lowercase
substring the detector looks for. -/
def c1CexCommit : CommitInfo :=
  { hash := jsStr "h1", date := jsStr "2025-06-01", title := jsStr "update",
    description := jsStr "update",
    changelog_section := some (jsStr "## BREAKING\n- Removed API") }

/-- Counterexample to claim C1 as stated: this one-commit batch parses
to a single entry of kind `breaking`, yet the detected bump type is
`patch`, not `major` — detection scans the raw commit text, not the
classified entries. -/
theorem claim1_entry_kinds_cex :
    ((commitBatchEntries [c1CexCommit]).map (fun e => e.type)) = [CKind.breaking] ∧
      determineVersionType [c1CexCommit] = .patch ∧
      VType.patch ≠ VType.major := by
  decide

/-- Claim C1 as amended: the detected bump type is decided by
substring signals on the commits themselves — `major` exactly when
some commit's raw changelog section contains `breaking`
(case-sensitively) or its lowercased title does; otherwise `minor`
exactly when some commit's title starts with `feat(` or its changelog
section contains the sparkle emoji or, lowercased, `feature`;
otherwise `patch`. -/
theorem claim1_detection_text_signals (commits : List CommitInfo) :
    (determineVersionType commits = .major ↔ ∃ c ∈ commits, BreakingSignal c) ∧
    (determineVersionType commits = .minor ↔
      (¬ ∃ c ∈ commits, BreakingSignal c) ∧ ∃ c ∈ commits, FeatureSignal c) ∧
    (determineVersionType commits = .patch ↔
      (¬ ∃ c ∈ commits, BreakingSignal c) ∧ ¬ ∃ c ∈ commits, FeatureSignal c) := by
  cases hb : commits.any commitBreakingSignal with
  | true =>
    have hB : ∃ c ∈ commits, BreakingSignal c := (any_breaking_iff commits).mp hb
    simp [determineVersionType, hb, hB]
  | false =>
    have hnB : ¬ ∃ c ∈ commits, BreakingSignal c := by
      intro hE
      rw [← any_breaking_iff commits] at hE
      rw [hb] at hE
      exact Bool.false_ne_true hE
    cases hf : commits.any commitFeatureSignal with
    | true =>
      have hF : ∃ c ∈ commits, FeatureSignal c := (any_feature_iff commits).mp hf
      simp [determineVersionType, hb, hf, hnB, hF]
    | false =>
      have hnF : ¬ ∃ c ∈ commits, FeatureSignal c := by
        intro hE
        rw [← any_feature_iff commits] at hE
        rw [hf] at hE
        exact Bool.false_ne_true hE
      simp [determineVersionType, hb, hf, hnB, hnF]

/-! ## Classifier priority order (claim C4) -/

/-- The classification rule exactly as claim C4 states it: `breaking`
first, then `fix` or the bug emoji, then `feature` or the sparkle
emoji, else `improvement`. -/
def specKindC4 (heading : JSString) : CKind :=
  if jsIncludes heading (jsStr "breaking") then .breaking
  else if jsIncludes heading (jsStr "fix") || jsIncludes heading (jsStr "🐛") then .fix
  else if jsIncludes heading (jsStr "feature") || jsIncludes heading (jsStr "✨") then
    .feature
  else .improvement

/-- The classification rule as amended to match the code: `fix` or the
bug emoji first, then `feature` or the sparkle emoji, then `breaking`,
else `improvement`. -/
def specKindC4Amended (heading : JSString) : CKind :=
  if jsIncludes heading (jsStr "fix") || jsIncludes heading (jsStr "🐛") then .fix
  else if jsIncludes heading (jsStr "feature") || jsIncludes heading (jsStr "✨") then
    .feature
  else if jsIncludes heading (jsStr "breaking") then .breaking
  else .improvement

/-- Counterexample to claim C4 as stated: on the heading
`breaking fix` the claim's priority order gives `breaking`, but the
classifier assigns `fix` (the code tests `fix` before `breaking`). -/
theorem claim4_priority_cex :
    specKindC4 (jsStr "breaking fix") = CKind.breaking ∧
      (processSectionEntries (jsStr "breaking fix") [jsStr "x"]).map (fun e => e.type) =
        [CKind.fix] ∧
      CKind.fix ≠ CKind.breaking := by
  decide

/-- Claim C4 as amended: every entry of a subsection gets the kind
computed from the lowercased heading by substring matching in the
order `fix`/bug emoji, then `feature`/sparkle emoji, then `breaking`,
else `improvement`; in particular a heading containing both `breaking`
and `fix` yields `fix`. -/
theorem claim4_classifier_priority_amended (sect : JSString)
    (entries : List JSString) :
    (processSectionEntries sect entries).map (fun e => e.type) =
      entries.map (fun _ => specKindC4Amended sect) ∧
    (processSectionEntries (jsStr "breaking fix") [jsStr "x"]).map (fun e => e.type) =
      [CKind.fix] := by
  refine ⟨?_, by decide⟩
  simp only [processSectionEntries, List.map_map]
  rfl

/-! ## Rejection of an invalid channel tag (claim C5) -/

theorem validatePfxTransition_invalid (cur : JSString) (p : JSString)
    (hpne : p.isEmpty = false) (hnotin : validPfxList.contains p = false) :
    validatePfxTransition cur (some p) = .error (jsStr "Prefijo inválido") := by
  have hmem : p ∉ validPfxList := by simpa using hnotin
  simp [validatePfxTransition, jsOptStrTruthy, hpne, hnotin, hmem]

/-- Claim C5: when a version cut is invoked on a nonempty batch of new
commits with an explicitly requested channel tag that is neither in
the recognized enumeration nor the explicit empty string (stable), the
operation fails with the invalid-tag error; the error return carries
no updated changelog data, so the persisted history is unchanged (the
source throws before its `writeFileSync`). -/
theorem claim5_invalid_tag_rejected (data : ChangelogData)
    (newCommits : List CommitInfo) (options : AnalyzeOptions) (today : JSString)
    (p : JSString) (hne : newCommits ≠ []) (hp : options.pfx = some p)
    (hpne : p.isEmpty = false) (hnotin : validPfxList.contains p = false) :
    analyzeAndVersionCore data newCommits options today =
      .error (jsStr "Prefijo inválido") := by
  have hempty : newCommits.isEmpty = false := by
    cases newCommits with
    | nil => exact absurd rfl hne
    | cons a l => rfl
  have hval := validatePfxTransition_invalid data.current_version p hpne hnotin
  simp [analyzeAndVersionCore, hempty, hp, hval]

/-- Data for the C5 witness. -/
def c5Data : ChangelogData := ⟨jsStr "0.1.0", []⟩

/-- Commit for the C5 witness. -/
def c5Commit : CommitInfo :=
  { hash := jsStr "aaa", date := jsStr "2025-01-01", title := jsStr "chore",
    description := jsStr "chore" }

/-- Witness for C5 at the concrete unrecognized tag `foo`. -/
theorem claim5_invalid_tag_rejected_witness :
    analyzeAndVersionCore c5Data [c5Commit] ⟨none, some (jsStr "foo")⟩
        (jsStr "2025-02-01") = .error (jsStr "Prefijo inválido") :=
  claim5_invalid_tag_rejected c5Data [c5Commit] ⟨none, some (jsStr "foo")⟩
    (jsStr "2025-02-01") (jsStr "foo") (by decide) rfl (by decide) (by decide)

/-! ## Recorded source commit hash (claim C8) -/

/-- Older of the two commits in the C8 inputs. -/
def c8OldCommit : CommitInfo :=
  { hash := jsStr "aaa", date := jsStr "2025-01-01", title := jsStr "chore one",
    description := jsStr "chore one" }

/-- Newer of the two commits in the C8 inputs. -/
def c8NewCommit : CommitInfo :=
  { hash := jsStr "bbb", date := jsStr "2025-01-02", title := jsStr "chore two",
    description := jsStr "chore two" }

/-- Counterexample to claim C8 as stated: cutting a version from the
oldest-to-newest batch `[aaa, bbb]` records commit hash `bbb` — the
newest contributing commit — not the oldest one (`aaa`) as claimed. -/
theorem claim8_oldest_hash_cex :
    (analyzeAndVersionCore ⟨jsStr "0.1.0", []⟩ [c8OldCommit, c8NewCommit]
          ⟨none, none⟩ (jsStr "2025-02-01")).map
        (fun d => d.versions.head?.map (fun v => v.commit_hash)) =
      .ok (some (jsStr "bbb")) ∧
    [c8OldCommit, c8NewCommit].head?.map (fun c => c.hash) = some (jsStr "aaa") ∧
    jsStr "bbb" ≠ jsStr "aaa" := by
  decide

/-- Claim C8 as amended: for every version cut from a nonempty batch
of contributing commits (oldest to newest) with no channel-tag
override, the recorded `commit_hash` of the new record is the hash of
the **newest** (last) contributing commit. -/
theorem claim8_recorded_hash_newest (data : ChangelogData)
    (newCommits : List CommitInfo) (options : AnalyzeOptions) (today : JSString)
    (hne : newCommits ≠ []) (hpfx : options.pfx = none) :
    (analyzeAndVersionCore data newCommits options today).map
        (fun d => d.versions.head?.map (fun v => v.commit_hash)) =
      .ok (newCommits.getLast?.map (fun c => c.hash)) := by
  have hempty : newCommits.isEmpty = false := by
    cases newCommits with
    | nil => exact absurd rfl hne
    | cons a l => rfl
  obtain ⟨lastC, hlast⟩ : ∃ lc, newCommits.getLast? = some lc := by
    cases hg : newCommits.getLast? with
    | none => exact absurd (List.getLast?_eq_none_iff.mp hg) hne
    | some lc => exact ⟨lc, rfl⟩
  simp [analyzeAndVersionCore, hempty, hpfx, hlast, Except.map]

/-- Witness for C8 (amended) at the concrete two-commit batch. -/
theorem claim8_recorded_hash_newest_witness :
    (analyzeAndVersionCore ⟨jsStr "0.1.0", []⟩ [c8OldCommit, c8NewCommit]
          ⟨none, none⟩ (jsStr "2025-02-01")).map
        (fun d => d.versions.head?.map (fun v => v.commit_hash)) =
      .ok ([c8OldCommit, c8NewCommit].getLast?.map (fun c => c.hash)) :=
  claim8_recorded_hash_newest ⟨jsStr "0.1.0", []⟩ [c8OldCommit, c8NewCommit]
    ⟨none, none⟩ (jsStr "2025-02-01") (by decide) rfl

/-! ## Historical grouping (claim C9) -/

/-- The grouping rule exactly as the claim's sentence states it, for
the running state after the first commit of a group: start a new group
when the gap between the current commit's date and the running group's
anchor date exceeds 7 days, or the running group already holds 10
commits. -/
def claimGroupsGo : List CommitInfo → List CommitInfo → JSString →
    List (List CommitInfo)
  | [], cur, _ => [cur]
  | c :: rest, cur, anchor =>
    if gapExceeds7 anchor c.date || cur.length == 10 then
      cur :: claimGroupsGo rest [c] c.date
    else claimGroupsGo rest (cur ++ [c]) anchor

/-- The claim's partition of a commit history: the first commit always
starts a group; after that `claimGroupsGo` applies. -/
def claimGroups : List CommitInfo → List (List CommitInfo)
  | [] => []
  | c :: rest => claimGroupsGo rest [c] c.date

theorem groupFold_run (rest : List CommitInfo) :
    ∀ (groupsAcc : List VGroup) (cur : List CommitInfo) (anchor : JSString),
      cur ≠ [] → cur.length ≤ 10 → anchor ≠ [] → (∀ c ∈ rest, c.date ≠ []) →
      (finishGroups (rest.foldl groupStep ⟨groupsAcc, cur, anchor⟩)).map
          (fun g => g.commits) =
        groupsAcc.map (fun g => g.commits) ++ claimGroupsGo rest cur anchor := by
  induction rest with
  | nil =>
    intro groupsAcc cur anchor hcur _ _ _
    have hcurE : cur.isEmpty = false := by
      cases cur with
      | nil => exact absurd rfl hcur
      | cons a l => rfl
    simp [finishGroups, hcurE, claimGroupsGo, mkVGroup]
  | cons c rest ih =>
    intro groupsAcc cur anchor hcur hlen hanchor hdates
    have hanchorE : anchor.isEmpty = false := by
      cases anchor with
      | nil => exact absurd rfl hanchor
      | cons a l => rfl
    have hcurE : cur.isEmpty = false := by
      cases cur with
      | nil => exact absurd rfl hcur
      | cons a l => rfl
    have hcdate : c.date ≠ [] := hdates c (List.mem_cons_self c rest)
    have hdates' : ∀ x ∈ rest, x.date ≠ [] :=
      fun x hx => hdates x (List.mem_cons_of_mem c hx)
    rw [List.foldl_cons]
    by_cases hcond : (gapExceeds7 anchor c.date || cur.length == 10) = true
    · have hstep : groupStep ⟨groupsAcc, cur, anchor⟩ c =
          ⟨groupsAcc ++ [mkVGroup cur anchor], [c], c.date⟩ := by
        rcases Bool.or_eq_true_iff.mp hcond with h | h
        · simp [groupStep, hanchorE, hcurE, h]
        · have h10 : cur.length = 10 := by simpa using h
          simp [groupStep, hanchorE, hcurE, h10]
      rw [hstep,
        ih (groupsAcc ++ [mkVGroup cur anchor]) [c] c.date (by simp) (by simp)
          hcdate hdates']
      simp only [claimGroupsGo, hcond, if_true, List.map_append, List.map_cons,
        List.map_nil, List.append_assoc, List.singleton_append, mkVGroup]
    · have hgl : gapExceeds7 anchor c.date = false ∧ (cur.length == 10) = false := by
        rcases hg : gapExceeds7 anchor c.date with _ | _ <;>
          rcases hl : cur.length == 10 with _ | _ <;>
          simp_all
      have hlt : ¬ (10 ≤ cur.length) := by
        have : cur.length ≠ 10 := by simpa using hgl.2
        omega
      have hstep : groupStep ⟨groupsAcc, cur, anchor⟩ c =
          ⟨groupsAcc, cur ++ [c], anchor⟩ := by
        simp [groupStep, hanchorE, hgl.1, hlt]
      have hlen' : (cur ++ [c]).length ≤ 10 := by
        have : cur.length ≠ 10 := by simpa using hgl.2
        simp only [List.length_append, List.length_cons, List.length_nil]
        omega
      rw [hstep, ih groupsAcc (cur ++ [c]) anchor (by simp) hlen' hanchor hdates']
      simp only [claimGroupsGo, hcond, if_false, Bool.false_eq_true]

/-- The commit list from the claim's example: 12 commits spanning 3
days (4 per day) followed by 1 commit 10 days later. -/
def demoCommit (h d : String) : CommitInfo :=
  { hash := jsStr h, date := jsStr d, title := jsStr "chore",
    description := jsStr "chore" }

/-- The 13-commit input of the C9 example. -/
def demo13 : List CommitInfo :=
  [demoCommit "c01" "2025-01-01", demoCommit "c02" "2025-01-01",
   demoCommit "c03" "2025-01-01", demoCommit "c04" "2025-01-01",
   demoCommit "c05" "2025-01-02", demoCommit "c06" "2025-01-02",
   demoCommit "c07" "2025-01-02", demoCommit "c08" "2025-01-02",
   demoCommit "c09" "2025-01-03", demoCommit "c10" "2025-01-03",
   demoCommit "c11" "2025-01-03", demoCommit "c12" "2025-01-03",
   demoCommit "c13" "2025-01-13"]

/-- Counterexample to claim C9 as stated: on 12 commits spanning 3
days followed by 1 commit 10 days later the grouping produces 3 groups
(the 10-commit cap splits the first 12 into 10 + 2, and the 10-day gap
isolates the last commit), not 2. -/
theorem claim9_two_groups_cex :
    (groupCommitsIntoVersions demo13).length = 3 ∧
      (groupCommitsIntoVersions demo13).length ≠ 2 ∧ demo13.length = 13 := by
  decide

/-- Claim C9 as amended: the grouping rule is as claimed — a new group
starts exactly at the first commit, when the gap from the running
group's anchor date exceeds 7 days, or when the running group already
holds 10 commits (for commits with nonempty dates, which real commits
always have) — but on the example input of 12 commits spanning 3 days
plus 1 commit 10 days later it therefore produces exactly 3 groups,
not 2. -/
theorem claim9_grouping (commits : List CommitInfo)
    (hdates : ∀ c ∈ commits, c.date ≠ []) :
    (groupCommitsIntoVersions commits).reverse.map (fun g => g.commits) =
        claimGroups commits ∧
      (groupCommitsIntoVersions demo13).length = 3 := by
  refine ⟨?_, by decide⟩
  cases commits with
  | nil => rfl
  | cons c rest =>
    have hcdate : c.date ≠ [] := hdates c (List.mem_cons_self c rest)
    have hdates' : ∀ x ∈ rest, x.date ≠ [] :=
      fun x hx => hdates x (List.mem_cons_of_mem c hx)
    have hstep0 : groupStep ⟨[], [], []⟩ c = ⟨[], [c], c.date⟩ := rfl
    rw [groupCommitsIntoVersions, List.reverse_reverse, List.foldl_cons, hstep0,
      groupFold_run rest [] [c] c.date (by simp) (by simp) hcdate hdates']
    simp [claimGroups]

/-- Witness for C9 (amended) at the example input. -/
theorem claim9_grouping_witness :
    (∀ c ∈ demo13, c.date ≠ []) ∧
      ((groupCommitsIntoVersions demo13).reverse.map (fun g => g.commits) =
          claimGroups demo13 ∧
        (groupCommitsIntoVersions demo13).length = 3) :=
  ⟨by decide, claim9_grouping demo13 (by decide)⟩

end GCW
